import Mathlib

/-!
Shallow embedding of the availability detector of `doctocheck`
(`src/play.py` and `src/playtest.py`).

The embedding models:
* the time-token regular expression `\b([01]?\d|2[0-3]):[0-5]\d\b`
  (`TIME_RE` in both files) with Python `finditer` semantics
  (leftmost, non-overlapping matches, word boundaries);
* `find_slot_times_in_frame` of both files, including the per-tier
  `try/except` blocks (an element whose visibility or text read raises
  aborts the remainder of that tier, keeping tokens already collected);
* `any_no_slots_ui_in_frame` (identical in both files);
* `detect_availability` of both files, abstracting wall-clock budgets
  into numbers of polls (phase 1 observes polls `0..s-1`, phase 2
  observes polls `s..s+n-1`; the settle wait and the network-idle wait
  only consume wall time and read no signal, so they do not appear);
* `try_click_variants` together with `click_first_visible`;
* the notification decision of `main` in both files.

Character classes (`\w`, `\s`, case folding) are modelled over the
ASCII range, which covers every literal appearing in the program.
-/

namespace DoctoCheck

/-! ## Character classes -/

/-- Word character for the regex word boundary `\b` (ASCII range of `\w`). -/
def isWordCh (c : Char) : Bool := c.isAlphanum || c == '_'

/-- Whitespace for `\s` and for Python `str.strip` (ASCII range). -/
def isSpaceCh (c : Char) : Bool :=
  c == ' ' || c == '\t' || c == '\n' || c == '\r' ||
  c == Char.ofNat 11 || c == Char.ofNat 12

/-- A valid high minute digit `[0-5]`. -/
def isMinHi (c : Char) : Bool := '0' ≤ c && c ≤ '5'

/-- The two-digit hour alternatives of `TIME_RE`: `[01]\d` or `2[0-3]`. -/
def isHour2 (a b : Char) : Bool :=
  ((a == '0' || a == '1') && b.isDigit) || (a == '2' && ('0' ≤ b && b ≤ '3'))

/-! ## TIME_RE: `\b([01]?\d|2[0-3]):[0-5]\d\b` with finditer semantics -/

/-- Word boundary after a match: end of input or a non-word character. -/
def bdAfter : List Char → Bool
  | [] => true
  | c :: _ => !isWordCh c

/-- Word boundary before a position, given the preceding character. -/
def bdBefore : Option Char → Bool
  | none => true
  | some c => !isWordCh c

/-- Try the five-character form `HH:MM` at the current position.
Returns the whole match paired with capturing group 1 (the hour). -/
def tryTime5 : List Char → Option (List Char × List Char)
  | a :: b :: c :: d :: e :: rest =>
    if isHour2 a b && c == ':' && isMinHi d && e.isDigit && bdAfter rest then
      some ([a, b, c, d, e], [a, b])
    else none
  | _ => none

/-- Try the four-character form `H:MM` (hour without leading zero). -/
def tryTime4 : List Char → Option (List Char × List Char)
  | a :: b :: c :: d :: rest =>
    if a.isDigit && b == ':' && isMinHi c && d.isDigit && bdAfter rest then
      some ([a, b, c, d], [a])
    else none
  | _ => none

/-- One match attempt of `TIME_RE` at the current position.  The two
forms are mutually exclusive (the second character is a digit in one
and `:` in the other), so the regex alternation order is immaterial. -/
def tryTime (l : List Char) : Option (List Char × List Char) :=
  match tryTime5 l with
  | some m => some m
  | none => tryTime4 l

/-- `finditer` scan: leftmost, non-overlapping matches.  `p` is the
character before the current suffix (for `\b`).  The fuel argument is
an upper bound on the number of iterations; each iteration consumes at
least one character, so `l.length` fuel is always sufficient. -/
def scanAux : Nat → Option Char → List Char → List (List Char × List Char)
  | 0, _, _ => []
  | _ + 1, _, [] => []
  | fuel + 1, p, c :: rest =>
    if bdBefore p then
      match tryTime (c :: rest) with
      | some m => m :: scanAux fuel (some (m.1.getLastD c)) (rest.drop (m.1.length - 1))
      | none => scanAux fuel (some c) rest
    else scanAux fuel (some c) rest

/-- All `TIME_RE` matches in a string, with their group-1 (hour) parts. -/
def scanTimes (l : List Char) : List (List Char × List Char) :=
  scanAux l.length none l

/-- The full match strings, as produced by `m.group(0)` over `finditer`. -/
def timeMatches (s : String) : List String :=
  (scanTimes s.data).map (fun m => String.mk m.1)

/-- The group-1 strings, as produced by `re.findall(TIME_RE, txt)` when
the pattern has one capturing group (the hour part of each match). -/
def hourTokens (s : String) : List String :=
  (scanTimes s.data).map (fun m => String.mk m.2)

/-- Python `str.strip` (whitespace from both ends, ASCII range). -/
def pyStrip (l : List Char) : List Char :=
  ((l.dropWhile isSpaceCh).reverse.dropWhile isSpaceCh).reverse

/-! ## Data model: elements, frames -/

/-- The tag of a candidate element, as far as the locators distinguish it. -/
inductive Tag
  | button
  | anchor
  | other
deriving DecidableEq

/-- A DOM element as observed by the detector.  `visible = none` models
`is_visible()` raising; `text = none` models `inner_text()` raising. -/
structure Element where
  tag : Tag
  slotCls : Bool
  roleBtn : Bool
  accName : String
  visible : Option Bool
  text : Option String
deriving DecidableEq

/-- A document context (page or frame).  `bodyText = none` models
`locator("body").inner_text()` raising. -/
structure Frame where
  elements : List Element
  bodyText : Option String
deriving DecidableEq

/-- Matches the locator `button.dl-button-slot`. -/
def matchesSlot (e : Element) : Bool := e.tag == Tag.button && e.slotCls

/-- Matches the locator `button, [role=button], a`. -/
def matchesGeneric (e : Element) : Bool :=
  e.tag == Tag.button || e.roleBtn || e.tag == Tag.anchor

/-! ## Python string ordering (code-point lexicographic), for `sorted` -/

/-- Python `str` comparison: lexicographic on code points. -/
def strLtB : List Char → List Char → Bool
  | _, [] => false
  | [], _ :: _ => true
  | a :: as, b :: bs =>
    if a.toNat < b.toNat then true
    else if b.toNat < a.toNat then false
    else strLtB as bs

/-- The `≤` order `sorted` uses on strings. -/
def strLe (s t : String) : Prop := strLtB t.data s.data = false

instance : DecidableRel strLe :=
  fun s t => Bool.decEq (strLtB t.data s.data) false

/-! ## find_slot_times_in_frame -/

/-- Add a list of extracted tokens to the accumulated set (`times.add`):
deduplicated by exact string value. -/
def addTokens (acc : List String) (ts : List String) : List String :=
  ts.foldl (fun a t => if t ∈ a then a else t :: a) acc

/-- One tier of `find_slot_times_in_frame`: iterate the (already
filtered and capped) candidate elements in order, skipping invisible
ones and extracting tokens from visible ones.  The whole tier sits in
one `try/except Exception: pass`, so a raising visibility or text read
returns the tokens accumulated so far and abandons the rest of the tier. -/
def scanTier (extract : String → List String) :
    List Element → List String → List String
  | [], acc => acc
  | e :: rest, acc =>
    match e.visible with
    | none => acc
    | some false => scanTier extract rest acc
    | some true =>
      match e.text with
      | none => acc
      | some txt => scanTier extract rest (addTokens acc (extract txt))

/-- play.py, slot-button tier: `txt = el.inner_text(...).strip()` then
`for t in re.findall(TIME_RE, txt): ... times.add(t)` — `TIME_RE` has one
capturing group, so `findall` yields the group-1 (hour) strings and the
`isinstance(t, tuple)` branch is dead: the bare hours are added. -/
def extractPlaySlot (txt : String) : List String :=
  hourTokens (String.mk (pyStrip txt.data))

/-- play.py, generic tier: `if ":" in txt and TIME_RE.search(txt):` then
add `mm.group(0)` for every `finditer` match. -/
def extractPlayGeneric (txt : String) : List String :=
  if (pyStrip txt.data).contains ':' && !(timeMatches (String.mk (pyStrip txt.data))).isEmpty
  then timeMatches (String.mk (pyStrip txt.data)) else []

/-- playtest.py, slot-button tier: add `m.group(0)` for every
`TIME_RE.finditer(txt)` match. -/
def extractPtSlot (txt : String) : List String :=
  timeMatches (String.mk (pyStrip txt.data))

/-- playtest.py, generic tier: `if ":" in txt:` then add `m.group(0)`
for every `finditer` match. -/
def extractPtGeneric (txt : String) : List String :=
  if (pyStrip txt.data).contains ':'
  then timeMatches (String.mk (pyStrip txt.data)) else []

/-- `find_slot_times_in_frame` of play.py: slot-button tier capped at
200, generic tier capped at 400, then `sorted(times)`. -/
def find_slot_times_play (fr : Frame) : List String :=
  let t1 := scanTier extractPlaySlot ((fr.elements.filter matchesSlot).take 200) []
  let t2 := scanTier extractPlayGeneric ((fr.elements.filter matchesGeneric).take 400) t1
  List.insertionSort strLe t2

/-- `find_slot_times_in_frame` of playtest.py: caps 300 and 600, full
match strings in both tiers, then `sorted(times)`. -/
def find_slot_times_playtest (fr : Frame) : List String :=
  let t1 := scanTier extractPtSlot ((fr.elements.filter matchesSlot).take 300) []
  let t2 := scanTier extractPtGeneric ((fr.elements.filter matchesGeneric).take 600) t1
  List.insertionSort strLe t2

/-! ## any_no_slots_ui_in_frame (identical in both files) -/

/-- The apostrophe character, used in the unavailability phrase. -/
def apos : Char := Char.ofNat 39

/-- Match a literal pattern (already lower case) against the lower-cased
head of the text; return the remaining text on success. -/
def litHere : List Char → List Char → Option (List Char)
  | [], l => some l
  | _ :: _, [] => none
  | p :: ps, c :: cs => if c.toLower == p then litHere ps cs else none

/-- `\s+`: at least one whitespace character, consumed greedily (the
following literal starts with a letter, so maximal munch is exact). -/
def sp1 : List Char → Option (List Char)
  | [] => none
  | c :: cs => if isSpaceCh c then some (cs.dropWhile isSpaceCh) else none

/-- Tail of the button-name pattern after `cherch(er)?`:
`\s+un\s+autre\s+(soignant|professionnel|praticien)`. -/
def chercherTail (l : List Char) : Bool :=
  match sp1 l with
  | none => false
  | some l1 =>
    match litHere "un".data l1 with
    | none => false
    | some l2 =>
      match sp1 l2 with
      | none => false
      | some l3 =>
        match litHere "autre".data l3 with
        | none => false
        | some l4 =>
          match sp1 l4 with
          | none => false
          | some l5 =>
            (litHere "soignant".data l5).isSome ||
            (litHere "professionnel".data l5).isSome ||
            (litHere "praticien".data l5).isSome

/-- The pattern `cherch(er)?\s+...` at the current position (case
insensitive); the optional `er` is tried greedily first, as the regex
engine does. -/
def chercherHere (l : List Char) : Bool :=
  match litHere "cherch".data l with
  | none => false
  | some r =>
    (match litHere "er".data r with
     | some r2 => chercherTail r2
     | none => false) || chercherTail r

/-- `re.search` of the button-name pattern: try every start position. -/
def chercherSearch : List Char → Bool
  | [] => false
  | c :: rest => chercherHere (c :: rest) || chercherSearch rest

/-- Accessible-name test used by `get_by_role(..., name=btn_regex)`. -/
def nameNoSlots (s : String) : Bool := chercherSearch s.data

/-- The literal unavailability phrase searched in the body text. -/
def noDispoPhrase : List Char :=
  ("n" ++ String.singleton apos ++ "est malheureusement pas disponible").data

/-- Case-insensitive substring search for the literal phrase. -/
def subSearch (p : List Char) : List Char → Bool
  | [] => (litHere p []).isSome
  | c :: rest => (litHere p (c :: rest)).isSome || subSearch p rest

/-- `re.search(r"n'est malheureusement pas disponible", body_text, re.I)`. -/
def bodyNoSlots (s : String) : Bool := subSearch noDispoPhrase s.data

/-- Accessible role of the button locator: `button` tag or `role=button`. -/
def isRoleButton (e : Element) : Bool := e.tag == Tag.button || e.roleBtn

/-- Accessible role of the link locator: an anchor. -/
def isRoleLink (e : Element) : Bool := e.tag == Tag.anchor

/-- `frame.get_by_role("link", name=btn_regex).first.is_visible()`:
result of the first matching element's visibility query, `none` when it
raises; an empty locator reports not visible. -/
def linkCheck (fr : Frame) : Option Bool :=
  match fr.elements.find? (fun e => isRoleLink e && nameNoSlots e.accName) with
  | some e => e.visible
  | none => some false

/-- The first `try` block of `any_no_slots_ui_in_frame`: the button
check and then the link check.  A raising visibility query (`none`)
aborts the block (so a raise in the button check skips the link check). -/
def roleCheck (fr : Frame) : Option Bool :=
  match fr.elements.find? (fun e => isRoleButton e && nameNoSlots e.accName) with
  | some e =>
    match e.visible with
    | none => none
    | some true => some true
    | some false => linkCheck fr
  | none => linkCheck fr

/-- `any_no_slots_ui_in_frame` (the function is character-identical in
play.py and playtest.py): visible role-matched button or link, else the
body-text phrase; every raise falls through to the next check or to
`False`. -/
def any_no_slots_ui (fr : Frame) : Bool :=
  match roleCheck fr with
  | some true => true
  | _ =>
    match fr.bodyText with
    | some b => bodyNoSlots b
    | none => false

/-! ## detect_availability

Wall-clock budgets are abstracted into poll counts: phase 1 runs `s`
polls observing `page 0 .. page (s-1)`; phase 2 runs `n` polls observing
`page s .. page (s+n-1)`.  The initial settle wait and the bounded
network-idle wait between the phases read no signal and are not modelled.
-/

/-- One phase-1 poll over `page.frames`: return the first frame's
non-empty time list, if any (`if times: return ("available", times)`). -/
def scanFramesTimes (f : Frame → List String) : List Frame → Option (List String)
  | [] => none
  | fr :: rest =>
    let ts := f fr
    if ts.isEmpty then scanFramesTimes f rest else some ts

/-- The phase-1 polling loop, starting at poll index `k` with `m` polls
of budget left. -/
def slotLoop (f : Frame → List String) (page : Nat → List Frame) :
    Nat → Nat → Option (List String)
  | _, 0 => none
  | k, m + 1 =>
    match scanFramesTimes f (page k) with
    | some ts => some ts
    | none => slotLoop f page (k + 1) m

/-- The phase-2 polling loop (`any_no_slots_ui_in_frame` over all frames). -/
def noSlotsLoop (page : Nat → List Frame) : Nat → Nat → Bool
  | _, 0 => false
  | k, m + 1 =>
    if (page k).any any_no_slots_ui then true else noSlotsLoop page (k + 1) m

/-- The tri-state result of `detect_availability`. -/
inductive Status
  | available
  | noSlots
  | unknown
deriving DecidableEq

/-- `detect_availability`, parameterised by the per-frame slot scan
(the only part that differs between the two files). -/
def detectWith (f : Frame → List String) (page : Nat → List Frame)
    (s n : Nat) : Status × List String :=
  match slotLoop f page 0 s with
  | some ts => (Status.available, ts)
  | none => if noSlotsLoop page s n then (Status.noSlots, []) else (Status.unknown, [])

/-- `detect_availability` of play.py. -/
def detect_availability_play (page : Nat → List Frame) (s n : Nat) :
    Status × List String :=
  detectWith find_slot_times_play page s n

/-- `detect_availability` of playtest.py. -/
def detect_availability_playtest (page : Nat → List Frame) (s n : Nat) :
    Status × List String :=
  detectWith find_slot_times_playtest page s n

/-! ## Instrumented detector (event log, for the temporal claims) -/

/-- An observation event: a phase-1 slot scan of poll `k`, or a phase-2
no-slots check of poll `k`. -/
inductive DEvent
  | slotPoll (k : Nat)
  | noSlotsPoll (k : Nat)
deriving DecidableEq

/-- Phase-1 loop with its event log. -/
def slotLoopLog (f : Frame → List String) (page : Nat → List Frame) :
    Nat → Nat → Option (List String) × List DEvent
  | _, 0 => (none, [])
  | k, m + 1 =>
    match scanFramesTimes f (page k) with
    | some ts => (some ts, [DEvent.slotPoll k])
    | none =>
      ((slotLoopLog f page (k + 1) m).1,
        DEvent.slotPoll k :: (slotLoopLog f page (k + 1) m).2)

/-- Phase-2 loop with its event log. -/
def noSlotsLoopLog (page : Nat → List Frame) :
    Nat → Nat → Bool × List DEvent
  | _, 0 => (false, [])
  | k, m + 1 =>
    if (page k).any any_no_slots_ui then (true, [DEvent.noSlotsPoll k])
    else
      ((noSlotsLoopLog page (k + 1) m).1,
        DEvent.noSlotsPoll k :: (noSlotsLoopLog page (k + 1) m).2)

/-- `detect_availability` with the sequence of observation events it
performs, in order. -/
def detectLogWith (f : Frame → List String) (page : Nat → List Frame)
    (s n : Nat) : (Status × List String) × List DEvent :=
  match (slotLoopLog f page 0 s).1 with
  | some ts => ((Status.available, ts), (slotLoopLog f page 0 s).2)
  | none =>
    ((if (noSlotsLoopLog page s n).1 then (Status.noSlots, []) else (Status.unknown, [])),
      (slotLoopLog f page 0 s).2 ++ (noSlotsLoopLog page s n).2)

/-! ## try_click_variants -/

/-- Outcome of one `click_first_visible` attempt: the element became
visible and was clicked, or a `PlaywrightTimeout`/`PlaywrightError` was
raised while waiting, scrolling or clicking. -/
inductive ClickTry
  | ok
  | fail
deriving DecidableEq

/-- Events of `try_click_variants`: an attempted variant (0-based), a
completed click, and the settle delay (`time.sleep(delay)`, `delay=0.6`). -/
inductive ClickEv
  | tried (i : Nat)
  | clicked (i : Nat)
  | settled
deriving DecidableEq

/-- The loop of `try_click_variants`, with the 0-based index of the
current variant. -/
def tryClickGo : List ClickTry → Nat → Bool × List ClickEv
  | [], _ => (false, [])
  | v :: rest, i =>
    match v with
    | ClickTry.ok => (true, [ClickEv.tried i, ClickEv.clicked i, ClickEv.settled])
    | ClickTry.fail =>
      let r := tryClickGo rest (i + 1)
      (r.1, ClickEv.tried i :: r.2)

/-- `try_click_variants`: try each variant in order, return `True` on
the first success (after the settle delay), `False` when all raise; the
caught exceptions never escape. -/
def try_click_variants (vs : List ClickTry) : Bool × List ClickEv :=
  tryClickGo vs 0

/-! ## main: the notification decision -/

/-- The branch of `main` (same shape in both files) deciding whether
`send_email_notification` is invoked, given the detection result. -/
def mainSendsEmail (r : Status × List String) : Bool :=
  match r.1 with
  | Status.available => true
  | Status.noSlots => false
  | Status.unknown => false

/-! ## Concrete observation fixtures used by the examples below -/

/-- Scenario A of the spec: one visible generic element `"09:30 - book"`. -/
def elScenA : Element := ⟨Tag.anchor, false, false, "", some true, some "09:30 - book"⟩

def frScenA : Frame := ⟨[elScenA], some ""⟩

def pageScenA : Nat → List Frame := fun _ => [frScenA]

/-- A frame whose only visible element carries `"10:00"`. -/
def frTen : Frame := ⟨[⟨Tag.anchor, false, false, "", some true, some "10:00"⟩], some ""⟩

/-- A frame whose only visible element carries `"09:30"`. -/
def frNine : Frame := ⟨[⟨Tag.anchor, false, false, "", some true, some "09:30"⟩], some ""⟩

/-- A document tree with two token-bearing frames. -/
def pageTwoFrames : Nat → List Frame := fun _ => [frTen, frNine]

/-- A visible element whose text carries both spellings of one time. -/
def elVar : Element := ⟨Tag.anchor, false, false, "", some true, some "9:05 09:05"⟩

def frVar : Frame := ⟨[elVar], some ""⟩

def pageVar : Nat → List Frame := fun _ => [frVar]

/-- A visible slot button whose `inner_text` read raises. -/
def elTextRaise : Element := ⟨Tag.button, true, false, "", some true, none⟩

/-- A visible slot button carrying `"09:30"`. -/
def elSlot930 : Element := ⟨Tag.button, true, false, "", some true, some "09:30"⟩

/-- The raising element precedes the token-bearing one. -/
def frRaise : Frame := ⟨[elTextRaise, elSlot930], some ""⟩

/-- The token-bearing slot button alone. -/
def frOk : Frame := ⟨[elSlot930], some ""⟩

def pageRaise : Nat → List Frame := fun _ => [frRaise]

def pageOk : Nat → List Frame := fun _ => [frOk]

/-- A visible button whose accessible name matches the no-slots pattern. -/
def elChercher : Element :=
  ⟨Tag.button, false, false, "Chercher un autre soignant", some true, some ""⟩

def frNoSlotsUi : Frame := ⟨[elChercher], some ""⟩

def pageNoSlotsUi : Nat → List Frame := fun _ => [frNoSlotsUi]

/-- A frame showing both signals at once: a token-bearing element, a
no-slots button, and the unavailability phrase in the body. -/
def frBoth : Frame :=
  ⟨[elScenA, elChercher],
    some ("Ce soignant n" ++ String.singleton apos ++ "est malheureusement pas disponible.")⟩

def pageBoth : Nat → List Frame := fun _ => [frBoth]

/-! ## Order facts about the Python string comparison -/

theorem strLtB_nil_right : ∀ l : List Char, strLtB l [] = false := by
  intro l; cases l <;> rfl

theorem strLtB_irrefl : ∀ l : List Char, strLtB l l = false := by
  intro l
  induction l with
  | nil => rfl
  | cons a as ih => simp [strLtB, ih]

theorem strLtB_asymm : ∀ x y : List Char, strLtB x y = true → strLtB y x = false := by
  intro x
  induction x with
  | nil =>
    intro y _
    exact strLtB_nil_right y
  | cons a as ih =>
    intro y h
    cases y with
    | nil => rw [strLtB_nil_right] at h; exact absurd h (by simp)
    | cons b bs =>
      unfold strLtB at h ⊢
      by_cases hab : a.toNat < b.toNat
      · rw [if_neg (by omega), if_pos hab]
      · rw [if_neg hab] at h
        by_cases hba : b.toNat < a.toNat
        · rw [if_pos hba] at h; exact absurd h (by simp)
        · rw [if_neg hba] at h
          rw [if_neg hba, if_neg hab]
          exact ih bs h

theorem strLtB_le_trans : ∀ x y z : List Char,
    strLtB y x = false → strLtB z y = false → strLtB z x = false := by
  intro x
  induction x with
  | nil =>
    intro y z _ _
    exact strLtB_nil_right z
  | cons a as ih =>
    intro y z h1 h2
    cases y with
    | nil => simp [strLtB] at h1
    | cons b bs =>
      cases z with
      | nil => simp [strLtB] at h2
      | cons c cs =>
        unfold strLtB at h1 h2 ⊢
        by_cases hba : b.toNat < a.toNat
        · rw [if_pos hba] at h1; exact absurd h1 (by simp)
        · rw [if_neg hba] at h1
          by_cases hcb : c.toNat < b.toNat
          · rw [if_pos hcb] at h2; exact absurd h2 (by simp)
          · rw [if_neg hcb] at h2
            rw [if_neg (by omega : ¬ c.toNat < a.toNat)]
            by_cases hac : a.toNat < c.toNat
            · rw [if_pos hac]
            · rw [if_neg hac]
              have hab : ¬ a.toNat < b.toNat := by omega
              have hbc : ¬ b.toNat < c.toNat := by omega
              rw [if_neg hab] at h1
              rw [if_neg hbc] at h2
              exact ih bs cs h1 h2

instance : IsTrans String strLe :=
  ⟨fun a b c h1 h2 => strLtB_le_trans a.data b.data c.data h1 h2⟩

instance : IsTotal String strLe := by
  refine ⟨fun a b => ?_⟩
  by_cases h : strLtB b.data a.data = true
  · exact Or.inr (strLtB_asymm _ _ h)
  · exact Or.inl (by simpa using h)

/-! ## Shape of extracted tokens -/

/-- A string of the shape the whole match of `TIME_RE` can have:
`HH:MM` or `H:MM` with hour `0`–`23` and minute `00`–`59`. -/
def isGoodTok : List Char → Bool
  | [a, b, c, d, e] => isHour2 a b && c == ':' && isMinHi d && e.isDigit
  | [a, b, c, d] => a.isDigit && b == ':' && isMinHi c && d.isDigit
  | _ => false

/-- A string of the shape group 1 (the hour part) of `TIME_RE` can have. -/
def isHourTok : List Char → Bool
  | [a] => a.isDigit
  | [a, b] => isHour2 a b
  | _ => false

theorem tryTime5_shape {l : List Char} {m : List Char × List Char}
    (h : tryTime5 l = some m) : isGoodTok m.1 = true ∧ isHourTok m.2 = true := by
  match l with
  | [] | [_] | [_, _] | [_, _, _] | [_, _, _, _] => simp [tryTime5] at h
  | a :: b :: c :: d :: e :: rest =>
    simp only [tryTime5] at h
    split at h
    · next hc =>
      cases h
      simp only [Bool.and_eq_true] at hc
      simp [isGoodTok, isHourTok, hc.1.1.1.1, hc.1.1.1.2, hc.1.1.2, hc.1.2]
    · exact absurd h (by simp)

theorem tryTime4_shape {l : List Char} {m : List Char × List Char}
    (h : tryTime4 l = some m) : isGoodTok m.1 = true ∧ isHourTok m.2 = true := by
  match l with
  | [] | [_] | [_, _] | [_, _, _] => simp [tryTime4] at h
  | a :: b :: c :: d :: rest =>
    simp only [tryTime4] at h
    split at h
    · next hc =>
      cases h
      simp only [Bool.and_eq_true] at hc
      simp [isGoodTok, isHourTok, hc.1.1.1, hc.1.1.2, hc.1.2]
    · exact absurd h (by simp)

theorem tryTime_shape {l : List Char} {m : List Char × List Char}
    (h : tryTime l = some m) : isGoodTok m.1 = true ∧ isHourTok m.2 = true := by
  unfold tryTime at h
  cases h5 : tryTime5 l with
  | some t => rw [h5] at h; cases h; exact tryTime5_shape h5
  | none => rw [h5] at h; exact tryTime4_shape h

theorem scanAux_shape : ∀ (fuel : Nat) (p : Option Char) (l : List Char)
    (m : List Char × List Char), m ∈ scanAux fuel p l →
    isGoodTok m.1 = true ∧ isHourTok m.2 = true := by
  intro fuel
  induction fuel with
  | zero => intro p l m h; simp [scanAux] at h
  | succ n ih =>
    intro p l m h
    cases l with
    | nil => simp [scanAux] at h
    | cons c rest =>
      simp only [scanAux] at h
      by_cases hb : bdBefore p = true
      · rw [if_pos hb] at h
        cases ht : tryTime (c :: rest) with
        | some t =>
          rw [ht] at h
          simp only [List.mem_cons] at h
          rcases h with h | h
          · subst h; exact tryTime_shape ht
          · exact ih _ _ _ h
        | none =>
          rw [ht] at h
          exact ih _ _ _ h
      · rw [if_neg hb] at h
        exact ih _ _ _ h

/-- Every full match string produced by the scan has a valid clock shape. -/
theorem timeMatches_shape {s : String} {t : String} (h : t ∈ timeMatches s) :
    isGoodTok t.data = true := by
  simp only [timeMatches, List.mem_map] at h
  obtain ⟨m, hm, rfl⟩ := h
  exact (scanAux_shape _ _ _ _ hm).1

/-- Every group-1 string produced by the scan is a valid hour part. -/
theorem hourTokens_shape {s : String} {t : String} (h : t ∈ hourTokens s) :
    isHourTok t.data = true := by
  simp only [hourTokens, List.mem_map] at h
  obtain ⟨m, hm, rfl⟩ := h
  exact (scanAux_shape _ _ _ _ hm).2

/-! ## Facts about the token accumulator and the tier scan -/

theorem mem_addTokens_left {acc ts : List String} {t : String} (h : t ∈ acc) :
    t ∈ addTokens acc ts := by
  induction ts generalizing acc with
  | nil => exact h
  | cons u ts ih =>
    simp only [addTokens, List.foldl_cons] at *
    apply ih
    by_cases hu : u ∈ acc
    · simpa [hu] using h
    · simp [hu, h]

theorem mem_addTokens_right {acc ts : List String} {t : String} (h : t ∈ ts) :
    t ∈ addTokens acc ts := by
  induction ts generalizing acc with
  | nil => exact absurd h (List.not_mem_nil t)
  | cons u ts ih =>
    simp only [addTokens, List.foldl_cons] at *
    rcases List.mem_cons.mp h with rfl | h
    · apply mem_addTokens_left
      by_cases hu : t ∈ acc <;> simp [hu]
    · exact ih h

theorem mem_addTokens {acc ts : List String} {t : String}
    (h : t ∈ addTokens acc ts) : t ∈ acc ∨ t ∈ ts := by
  induction ts generalizing acc with
  | nil => exact Or.inl h
  | cons u ts ih =>
    simp only [addTokens, List.foldl_cons] at h
    rcases ih h with h' | h'
    · by_cases hu : u ∈ acc
      · simp [hu] at h'; exact Or.inl h'
      · simp [hu] at h'
        rcases h' with rfl | h'
        · exact Or.inr (List.mem_cons_self _ _)
        · exact Or.inl h'
    · exact Or.inr (List.mem_cons_of_mem _ h')

theorem addTokens_nodup {acc ts : List String} (h : acc.Nodup) :
    (addTokens acc ts).Nodup := by
  induction ts generalizing acc with
  | nil => exact h
  | cons u ts ih =>
    simp only [addTokens, List.foldl_cons]
    apply ih
    by_cases hu : u ∈ acc
    · simpa [hu]
    · simp only [if_neg hu]
      exact List.nodup_cons.mpr ⟨hu, h⟩

theorem addTokens_eq_nil_iff {acc ts : List String} :
    addTokens acc ts = [] ↔ acc = [] ∧ ts = [] := by
  constructor
  · intro h
    constructor
    · cases hacc : acc with
      | nil => rfl
      | cons a as =>
        have := @mem_addTokens_left acc ts a (by simp [hacc])
        rw [h] at this
        exact absurd this (List.not_mem_nil a)
    · cases hts : ts with
      | nil => rfl
      | cons u us =>
        have := @mem_addTokens_right acc ts u (by simp [hts])
        rw [h] at this
        exact absurd this (List.not_mem_nil u)
  · rintro ⟨rfl, rfl⟩
    rfl

theorem mem_scanTier {E : String → List String} :
    ∀ {els : List Element} {acc : List String} {t : String},
    t ∈ scanTier E els acc → t ∈ acc ∨ ∃ txt, t ∈ E txt := by
  intro els
  induction els with
  | nil => intro acc t h; exact Or.inl h
  | cons e rest ih =>
    intro acc t h
    simp only [scanTier] at h
    cases hv : e.visible with
    | none => rw [hv] at h; exact Or.inl h
    | some b =>
      cases b with
      | false => rw [hv] at h; exact ih h
      | true =>
        rw [hv] at h
        cases htx : e.text with
        | none => rw [htx] at h; exact Or.inl h
        | some txt =>
          rw [htx] at h
          rcases ih h with h' | h'
          · rcases mem_addTokens h' with h'' | h''
            · exact Or.inl h''
            · exact Or.inr ⟨txt, h''⟩
          · exact Or.inr h'

theorem scanTier_acc_subset {E : String → List String} :
    ∀ {els : List Element} {acc : List String} {t : String},
    t ∈ acc → t ∈ scanTier E els acc := by
  intro els
  induction els with
  | nil => intro acc t h; exact h
  | cons e rest ih =>
    intro acc t h
    simp only [scanTier]
    cases e.visible with
    | none => exact h
    | some b =>
      cases b with
      | false => exact ih h
      | true =>
        cases e.text with
        | none => exact h
        | some txt => exact ih (mem_addTokens_left h)

theorem scanTier_nodup {E : String → List String} :
    ∀ {els : List Element} {acc : List String}, acc.Nodup →
    (scanTier E els acc).Nodup := by
  intro els
  induction els with
  | nil => intro acc h; exact h
  | cons e rest ih =>
    intro acc h
    simp only [scanTier]
    cases e.visible with
    | none => exact h
    | some b =>
      cases b with
      | false => exact ih h
      | true =>
        cases e.text with
        | none => exact h
        | some txt => exact ih (addTokens_nodup h)

/-- An element whose visibility or text read raises ends the tier: the
candidates after it are never consulted in that tier. -/
theorem scanTier_abort {E : String → List String} :
    ∀ (pre : List Element) (e : Element) (post : List Element) (acc : List String),
    e.visible = none ∨ (e.visible = some true ∧ e.text = none) →
    scanTier E (pre ++ e :: post) acc = scanTier E (pre ++ [e]) acc := by
  intro pre
  induction pre with
  | nil =>
    intro e post acc he
    rcases he with he | ⟨hv, ht⟩
    · simp [scanTier, he]
    · simp [scanTier, hv, ht]
  | cons p pre ih =>
    intro e post acc he
    simp only [List.cons_append, scanTier]
    cases p.visible with
    | none => rfl
    | some b =>
      cases b with
      | false => exact ih e post acc he
      | true =>
        cases p.text with
        | none => rfl
        | some txt => exact ih e post _ he

theorem scanTier_nil_iff {E1 E2 : String → List String}
    (hE : ∀ txt, E1 txt = [] ↔ E2 txt = []) :
    ∀ (els : List Element) (acc1 acc2 : List String), (acc1 = [] ↔ acc2 = []) →
    (scanTier E1 els acc1 = [] ↔ scanTier E2 els acc2 = []) := by
  intro els
  induction els with
  | nil => intro acc1 acc2 h; exact h
  | cons e rest ih =>
    intro acc1 acc2 h
    simp only [scanTier]
    cases e.visible with
    | none => exact h
    | some b =>
      cases b with
      | false => exact ih acc1 acc2 h
      | true =>
        cases e.text with
        | none => exact h
        | some txt =>
          apply ih
          rw [addTokens_eq_nil_iff, addTokens_eq_nil_iff, h, hE txt]

/-! ## Characterisation of the polling loops -/

theorem scanFramesTimes_eq_none_iff {f : Frame → List String} :
    ∀ l : List Frame, scanFramesTimes f l = none ↔ ∀ fr ∈ l, f fr = [] := by
  intro l
  induction l with
  | nil => simp [scanFramesTimes]
  | cons fr rest ih =>
    simp only [scanFramesTimes]
    by_cases h : (f fr).isEmpty
    · rw [if_pos h, ih]
      simp only [List.isEmpty_iff] at h
      simp [h]
    · rw [if_neg h]
      simp only [List.isEmpty_iff] at h
      simp [h]

theorem scanFramesTimes_some {f : Frame → List String} :
    ∀ {l : List Frame} {ts : List String}, scanFramesTimes f l = some ts →
    ∃ fr ∈ l, f fr = ts ∧ ts ≠ [] := by
  intro l
  induction l with
  | nil => intro ts h; simp [scanFramesTimes] at h
  | cons fr rest ih =>
    intro ts h
    simp only [scanFramesTimes] at h
    by_cases he : (f fr).isEmpty
    · rw [if_pos he] at h
      obtain ⟨fr', h1, h2⟩ := ih h
      exact ⟨fr', List.mem_cons_of_mem _ h1, h2⟩
    · rw [if_neg he] at h
      cases h
      simp only [List.isEmpty_iff] at he
      exact ⟨fr, List.mem_cons_self _ _, rfl, he⟩

theorem slotLoop_eq_none_iff {f : Frame → List String} {page : Nat → List Frame} :
    ∀ (m k : Nat), slotLoop f page k m = none ↔
      ∀ j, j < m → scanFramesTimes f (page (k + j)) = none := by
  intro m
  induction m with
  | zero => intro k; simp [slotLoop]
  | succ m ih =>
    intro k
    simp only [slotLoop]
    cases h : scanFramesTimes f (page k) with
    | some ts =>
      simp only [reduceCtorEq, false_iff, not_forall]
      exact ⟨0, Nat.succ_pos m, by rw [Nat.add_zero, h]; simp⟩
    | none =>
      rw [ih (k + 1)]
      constructor
      · intro hall j hj
        cases j with
        | zero => simpa using h
        | succ j =>
          have := hall j (Nat.lt_of_succ_lt_succ hj)
          simpa [Nat.add_comm, Nat.add_left_comm, Nat.add_assoc] using this
      · intro hall j hj
        have := hall (j + 1) (Nat.succ_lt_succ hj)
        simpa [Nat.add_comm, Nat.add_left_comm, Nat.add_assoc] using this

theorem slotLoop_some {f : Frame → List String} {page : Nat → List Frame} :
    ∀ {m k : Nat} {ts : List String}, slotLoop f page k m = some ts →
    ∃ j, j < m ∧ scanFramesTimes f (page (k + j)) = some ts := by
  intro m
  induction m with
  | zero => intro k ts h; simp [slotLoop] at h
  | succ m ih =>
    intro k ts h
    simp only [slotLoop] at h
    cases hs : scanFramesTimes f (page k) with
    | some ts' =>
      rw [hs] at h
      cases h
      exact ⟨0, Nat.succ_pos m, by simpa using hs⟩
    | none =>
      rw [hs] at h
      obtain ⟨j, hj, hsj⟩ := ih h
      exact ⟨j + 1, Nat.succ_lt_succ hj, by
        rw [show k + (j + 1) = k + 1 + j by omega]; exact hsj⟩

theorem noSlotsLoop_eq_true_iff {page : Nat → List Frame} :
    ∀ (m k : Nat), noSlotsLoop page k m = true ↔
      ∃ j, j < m ∧ (page (k + j)).any any_no_slots_ui = true := by
  intro m
  induction m with
  | zero => intro k; simp [noSlotsLoop]
  | succ m ih =>
    intro k
    simp only [noSlotsLoop]
    by_cases h : (page k).any any_no_slots_ui = true
    · simp only [if_pos h, true_iff]
      exact ⟨0, Nat.succ_pos m, by simpa using h⟩
    · rw [if_neg h, ih (k + 1)]
      constructor
      · rintro ⟨j, hj, hja⟩
        exact ⟨j + 1, Nat.succ_lt_succ hj, by
          rw [show k + (j + 1) = k + 1 + j by omega]; exact hja⟩
      · rintro ⟨j, hj, hja⟩
        cases j with
        | zero => rw [Nat.add_zero] at hja; exact absurd hja h
        | succ j =>
          exact ⟨j, Nat.lt_of_succ_lt_succ hj, by
            rw [show k + 1 + j = k + (j + 1) by omega]; exact hja⟩

/-! ## Facts about the instrumented detector -/

theorem slotLoopLog_fst {f : Frame → List String} {page : Nat → List Frame} :
    ∀ (m k : Nat), (slotLoopLog f page k m).1 = slotLoop f page k m := by
  intro m
  induction m with
  | zero => intro k; rfl
  | succ m ih =>
    intro k
    simp only [slotLoopLog, slotLoop]
    cases h : scanFramesTimes f (page k) with
    | some ts => rfl
    | none => exact ih (k + 1)

theorem noSlotsLoopLog_fst {page : Nat → List Frame} :
    ∀ (m k : Nat), (noSlotsLoopLog page k m).1 = noSlotsLoop page k m := by
  intro m
  induction m with
  | zero => intro k; rfl
  | succ m ih =>
    intro k
    simp only [noSlotsLoopLog, noSlotsLoop]
    by_cases h : (page k).any any_no_slots_ui = true
    · rw [if_pos h, if_pos h]
    · rw [if_neg h, if_neg h]
      exact ih (k + 1)

theorem slotLoopLog_events {f : Frame → List String} {page : Nat → List Frame} :
    ∀ (m k : Nat), ∃ a : List Nat,
      (slotLoopLog f page k m).2 = a.map DEvent.slotPoll := by
  intro m
  induction m with
  | zero => intro k; exact ⟨[], rfl⟩
  | succ m ih =>
    intro k
    simp only [slotLoopLog]
    cases h : scanFramesTimes f (page k) with
    | some ts => exact ⟨[k], rfl⟩
    | none =>
      obtain ⟨a, ha⟩ := ih (k + 1)
      exact ⟨k :: a, by simp [ha]⟩

theorem noSlotsLoopLog_events {page : Nat → List Frame} :
    ∀ (m k : Nat), ∃ b : List Nat,
      (noSlotsLoopLog page k m).2 = b.map DEvent.noSlotsPoll ∧ ∀ j ∈ b, k ≤ j := by
  intro m
  induction m with
  | zero => intro k; exact ⟨[], rfl, by simp⟩
  | succ m ih =>
    intro k
    simp only [noSlotsLoopLog]
    by_cases h : (page k).any any_no_slots_ui = true
    · rw [if_pos h]
      exact ⟨[k], rfl, by simp⟩
    · rw [if_neg h]
      obtain ⟨b, hb, hge⟩ := ih (k + 1)
      refine ⟨k :: b, by simp [hb], ?_⟩
      intro j hj
      rcases List.mem_cons.mp hj with rfl | hj
      · exact Nat.le_refl j
      · exact Nat.le_of_succ_le (hge j hj)

theorem slotLoopLog_all_none {f : Frame → List String} {page : Nat → List Frame} :
    ∀ (m k : Nat), (∀ j, j < m → scanFramesTimes f (page (k + j)) = none) →
    slotLoopLog f page k m = (none, (List.range' k m).map DEvent.slotPoll) := by
  intro m
  induction m with
  | zero => intro k _; rfl
  | succ m ih =>
    intro k hall
    have h0 : scanFramesTimes f (page k) = none := by
      have := hall 0 (Nat.succ_pos m); rwa [Nat.add_zero] at this
    simp only [slotLoopLog, h0]
    have hrec := ih (k + 1) (by
      intro j hj
      have := hall (j + 1) (Nat.succ_lt_succ hj)
      rwa [show k + (j + 1) = k + 1 + j by omega] at this)
    rw [hrec]
    rfl

theorem slotLoopLog_hit {f : Frame → List String} {page : Nat → List Frame} :
    ∀ (d m k : Nat) (ts : List String), d < m →
    (∀ j, j < d → scanFramesTimes f (page (k + j)) = none) →
    scanFramesTimes f (page (k + d)) = some ts →
    slotLoopLog f page k m = (some ts, (List.range' k (d + 1)).map DEvent.slotPoll) := by
  intro d
  induction d with
  | zero =>
    intro m k ts hm _ hhit
    rw [Nat.add_zero] at hhit
    cases m with
    | zero => exact absurd hm (Nat.lt_irrefl 0)
    | succ m => simp [slotLoopLog, hhit, List.range']
  | succ d ih =>
    intro m k ts hm hnone hhit
    cases m with
    | zero => exact absurd hm (Nat.not_lt_zero _)
    | succ m =>
      have h0 : scanFramesTimes f (page k) = none := by
        have := hnone 0 (Nat.succ_pos d); rwa [Nat.add_zero] at this
      simp only [slotLoopLog, h0]
      have hrec := ih m (k + 1) ts (Nat.lt_of_succ_lt_succ hm)
        (by
          intro j hj
          have := hnone (j + 1) (Nat.succ_lt_succ hj)
          rwa [show k + (j + 1) = k + 1 + j by omega] at this)
        (by rwa [show k + (d + 1) = k + 1 + d by omega] at hhit)
      rw [hrec]
      rfl

/-! ## Sortedness of the per-frame result -/

theorem find_slot_times_play_sorted (fr : Frame) :
    List.Sorted strLe (find_slot_times_play fr) ∧ (find_slot_times_play fr).Nodup := by
  unfold find_slot_times_play
  refine ⟨List.sorted_insertionSort strLe _, ?_⟩
  have hperm := List.perm_insertionSort strLe
    (scanTier extractPlayGeneric ((fr.elements.filter matchesGeneric).take 400)
      (scanTier extractPlaySlot ((fr.elements.filter matchesSlot).take 200) []))
  rw [List.Perm.nodup_iff hperm]
  exact scanTier_nodup (scanTier_nodup List.nodup_nil)

theorem find_slot_times_playtest_sorted (fr : Frame) :
    List.Sorted strLe (find_slot_times_playtest fr) ∧ (find_slot_times_playtest fr).Nodup := by
  unfold find_slot_times_playtest
  refine ⟨List.sorted_insertionSort strLe _, ?_⟩
  have hperm := List.perm_insertionSort strLe
    (scanTier extractPtGeneric ((fr.elements.filter matchesGeneric).take 600)
      (scanTier extractPtSlot ((fr.elements.filter matchesSlot).take 300) []))
  rw [List.Perm.nodup_iff hperm]
  exact scanTier_nodup (scanTier_nodup List.nodup_nil)

/-! ## Shape of the tokens each extractor yields -/

theorem extractPtSlot_shape {txt t : String} (h : t ∈ extractPtSlot txt) :
    isGoodTok t.data = true := by
  unfold extractPtSlot at h
  exact timeMatches_shape h

theorem extractPtGeneric_shape {txt t : String} (h : t ∈ extractPtGeneric txt) :
    isGoodTok t.data = true := by
  unfold extractPtGeneric at h
  by_cases hc : (pyStrip txt.data).contains ':' = true
  · rw [if_pos hc] at h
    exact timeMatches_shape h
  · rw [if_neg hc] at h
    exact absurd h (List.not_mem_nil t)

theorem extractPlaySlot_shape {txt t : String} (h : t ∈ extractPlaySlot txt) :
    isHourTok t.data = true := by
  unfold extractPlaySlot at h
  exact hourTokens_shape h

theorem extractPlayGeneric_shape {txt t : String} (h : t ∈ extractPlayGeneric txt) :
    isGoodTok t.data = true := by
  unfold extractPlayGeneric at h
  by_cases hc : ((pyStrip txt.data).contains ':' &&
      !(timeMatches (String.mk (pyStrip txt.data))).isEmpty) = true
  · rw [if_pos hc] at h
    exact timeMatches_shape h
  · rw [if_neg hc] at h
    exact absurd h (List.not_mem_nil t)

/-- Every member of play.py's per-frame list is a full match or an hour part. -/
theorem mem_find_slot_times_play {fr : Frame} {t : String}
    (h : t ∈ find_slot_times_play fr) :
    isGoodTok t.data = true ∨ isHourTok t.data = true := by
  unfold find_slot_times_play at h
  rw [List.mem_insertionSort] at h
  rcases mem_scanTier h with h1 | ⟨txt, h2⟩
  · rcases mem_scanTier h1 with h0 | ⟨txt, h2⟩
    · exact absurd h0 (List.not_mem_nil t)
    · exact Or.inr (extractPlaySlot_shape h2)
  · exact Or.inl (extractPlayGeneric_shape h2)

/-- Every member of playtest.py's per-frame list is a full match. -/
theorem mem_find_slot_times_playtest {fr : Frame} {t : String}
    (h : t ∈ find_slot_times_playtest fr) : isGoodTok t.data = true := by
  unfold find_slot_times_playtest at h
  rw [List.mem_insertionSort] at h
  rcases mem_scanTier h with h1 | ⟨txt, h2⟩
  · rcases mem_scanTier h1 with h0 | ⟨txt, h2⟩
    · exact absurd h0 (List.not_mem_nil t)
    · exact extractPtSlot_shape h2
  · exact extractPtGeneric_shape h2

/-! ## Claim theorems -/

/-- C5 ("confirmed"): token extraction rejects out-of-range clock
values: for every input text, the substrings `24:00` and `12:60` are
never extracted as tokens by `TIME_RE` (hour `0`–`23`, minute `00`–`59`,
optional leading zero on the hour). -/
theorem claim_C5 (txt : String) :
    "24:00" ∉ timeMatches txt ∧ "12:60" ∉ timeMatches txt := by
  constructor
  · intro h
    exact absurd (timeMatches_shape h) (by decide)
  · intro h
    exact absurd (timeMatches_shape h) (by decide)

/-- Witness for C5 at a concrete input text. -/
theorem claim_C5_witness :
    "24:00" ∉ timeMatches "24:00 12:60" ∧ "12:60" ∉ timeMatches "24:00 12:60" :=
  claim_C5 "24:00 12:60"

/-- C6 ("confirmed"): for all inputs, `detect_availability` returns
exactly one of the three variants; on `available` the token list is
non-empty, duplicate-free and sorted ascending in the code-point
lexicographic string order `sorted` uses; on the other two variants the
list is empty. -/
theorem claim_C6 (page : Nat → List Frame) (s n : Nat) :
    ((detect_availability_play page s n).1 = Status.available ∨
     (detect_availability_play page s n).1 = Status.noSlots ∨
     (detect_availability_play page s n).1 = Status.unknown) ∧
    ((detect_availability_play page s n).1 = Status.available →
      (detect_availability_play page s n).2 ≠ [] ∧
      List.Sorted strLe (detect_availability_play page s n).2 ∧
      (detect_availability_play page s n).2.Nodup) ∧
    ((detect_availability_play page s n).1 = Status.noSlots ∨
     (detect_availability_play page s n).1 = Status.unknown →
      (detect_availability_play page s n).2 = []) := by
  unfold detect_availability_play detectWith
  cases h : slotLoop find_slot_times_play page 0 s with
  | some ts =>
    obtain ⟨j, hj, hscan⟩ := slotLoop_some h
    obtain ⟨fr, hfr, hts, htne⟩ := scanFramesTimes_some hscan
    refine ⟨Or.inl rfl, ?_, ?_⟩
    · intro _
      rw [← hts]
      exact ⟨by
        intro hc
        rw [hts] at hc
        exact htne hc,
        (find_slot_times_play_sorted fr).1, (find_slot_times_play_sorted fr).2⟩
    · rintro (hst | hst) <;> exact absurd hst (by simp)
  | none =>
    by_cases hb : noSlotsLoop page s n = true
    · rw [if_pos hb]
      exact ⟨Or.inr (Or.inl rfl), fun hst => absurd hst (by simp), fun _ => rfl⟩
    · rw [if_neg hb]
      exact ⟨Or.inr (Or.inr rfl), fun hst => absurd hst (by simp), fun _ => rfl⟩

/-- Witness for C6: scenario A yields a non-empty, sorted, duplicate-free
list. -/
theorem claim_C6_witness :
    (detect_availability_play pageScenA 1 0).2 ≠ [] ∧
    List.Sorted strLe (detect_availability_play pageScenA 1 0).2 ∧
    (detect_availability_play pageScenA 1 0).2.Nodup :=
  (claim_C6 pageScenA 1 0).2.1 (by decide)

/-- C8 ("confirmed"): `main` invokes `send_email_notification` exactly
when `detect_availability` reports the available state; `Unknown` and
`NoneAvailable` never trigger the notification, for every detection
outcome, in both files. -/
theorem claim_C8 (page : Nat → List Frame) (s n : Nat) :
    (mainSendsEmail (detect_availability_play page s n) = true ↔
      (detect_availability_play page s n).1 = Status.available) ∧
    (mainSendsEmail (detect_availability_playtest page s n) = true ↔
      (detect_availability_playtest page s n).1 = Status.available) := by
  have haux : ∀ r : Status × List String,
      (mainSendsEmail r = true ↔ r.1 = Status.available) := by
    intro r
    obtain ⟨st, ts⟩ := r
    cases st <;> simp [mainSendsEmail]
  exact ⟨haux _, haux _⟩

/-- Witness for C8: a concrete available outcome triggers the mail and a
concrete unknown outcome does not. -/
theorem claim_C8_witness :
    mainSendsEmail (detect_availability_play pageScenA 1 0) = true :=
  (claim_C8 pageScenA 1 0).1.mpr (by decide)

/-- C2 ("confirmed"): `detect_availability` returns `none` exactly when
no slot token was observed at any poll of the slots budget and the
explicit unavailability indicator (visible role-matched button or link
whose accessible name matches the case-insensitive
`cherch(er)? un autre (soignant|professionnel|praticien)` pattern, or
body text containing the unavailability phrase — the content of
`any_no_slots_ui`) appears at some poll of the no-slots budget; it
returns `unknown` exactly when both budgets expire with neither signal
observed. -/
theorem claim_C2 (page : Nat → List Frame) (s n : Nat) :
    ((detect_availability_play page s n).1 = Status.noSlots ↔
      (∀ k, k < s → ∀ fr ∈ page k, find_slot_times_play fr = []) ∧
      (∃ k, k < n ∧ ∃ fr ∈ page (s + k), any_no_slots_ui fr = true)) ∧
    ((detect_availability_play page s n).1 = Status.unknown ↔
      (∀ k, k < s → ∀ fr ∈ page k, find_slot_times_play fr = []) ∧
      (∀ k, k < n → ∀ fr ∈ page (s + k), any_no_slots_ui fr = false)) := by
  unfold detect_availability_play detectWith
  cases h : slotLoop find_slot_times_play page 0 s with
  | some ts =>
    have hnall : ¬ (∀ k, k < s → ∀ fr ∈ page k, find_slot_times_play fr = []) := by
      intro hall
      have hnone : slotLoop find_slot_times_play page 0 s = none := by
        rw [slotLoop_eq_none_iff]
        intro j hj
        rw [scanFramesTimes_eq_none_iff]
        intro fr hfr
        exact hall j hj fr (by rwa [Nat.zero_add] at hfr)
      rw [h] at hnone
      exact Option.noConfusion hnone
    constructor
    · exact ⟨fun hst => absurd hst (by simp), fun hr => (hnall hr.1).elim⟩
    · exact ⟨fun hst => absurd hst (by simp), fun hr => (hnall hr.1).elim⟩
  | none =>
    have hall : ∀ k, k < s → ∀ fr ∈ page k, find_slot_times_play fr = [] := by
      intro k hk fr hfr
      have hsk := (slotLoop_eq_none_iff s 0).mp h k hk
      rw [Nat.zero_add] at hsk
      exact (scanFramesTimes_eq_none_iff _).mp hsk fr hfr
    by_cases hb : noSlotsLoop page s n = true
    · rw [if_pos hb]
      have hex : ∃ k, k < n ∧ ∃ fr ∈ page (s + k), any_no_slots_ui fr = true := by
        obtain ⟨j, hj, hja⟩ := (noSlotsLoop_eq_true_iff n s).mp hb
        obtain ⟨fr, hfr, hft⟩ := List.any_eq_true.mp hja
        exact ⟨j, hj, fr, hfr, hft⟩
      refine ⟨⟨fun _ => ⟨hall, hex⟩, fun _ => rfl⟩, ?_, ?_⟩
      · intro hst
        exact absurd hst (by simp)
      · rintro ⟨-, hnone2⟩
        obtain ⟨k, hk, fr, hfr, hfrt⟩ := hex
        have hc := hnone2 k hk fr hfr
        rw [hfrt] at hc
        exact Bool.noConfusion hc
    · rw [if_neg hb]
      have hnot : ∀ k, k < n → ∀ fr ∈ page (s + k), any_no_slots_ui fr = false := by
        intro k hk fr hfr
        cases hx : any_no_slots_ui fr with
        | false => rfl
        | true =>
          exact absurd ((noSlotsLoop_eq_true_iff n s).mpr
            ⟨k, hk, List.any_eq_true.mpr ⟨fr, hfr, hx⟩⟩) hb
      refine ⟨⟨?_, ?_⟩, fun _ => ⟨hall, hnot⟩, fun _ => rfl⟩
      · intro hst
        exact absurd hst (by simp)
      · rintro ⟨-, hex⟩
        obtain ⟨k, hk, fr, hfr, hfrt⟩ := hex
        have hc := hnot k hk fr hfr
        rw [hfrt] at hc
        exact Bool.noConfusion hc

/-- Witness for C2: with no token-bearing element anywhere and a visible
matching button at the first no-slots poll, the result is `noSlots`. -/
theorem claim_C2_witness :
    (detect_availability_play pageNoSlotsUi 1 1).1 = Status.noSlots :=
  (claim_C2 pageNoSlotsUi 1 1).1.mpr (by decide)

/-- Counterexample to C1 as stated: with two token-bearing frames, the
detector returns only the first frame's tokens, so the `"09:30"`
extracted from the second frame's visible element is absent from the
returned set (the claim asserts it would be present regardless of which
DocumentContext supplied it). -/
theorem claim_C1_counterexample :
    frNine ∈ pageTwoFrames 0 ∧
    find_slot_times_play frNine = ["09:30"] ∧
    (detect_availability_play pageTwoFrames 1 1).1 = Status.available ∧
    "09:30" ∉ (detect_availability_play pageTwoFrames 1 1).2 := by decide

/-- C1 ("corrected"): if any scanned visible element yields a time token
during the slot-scan phase, detection returns `available` regardless of
which DocumentContext supplied it; but the returned set is the token set
of the first frame (in enumeration order) that yields any tokens at the
earliest token-bearing poll — not an accumulation over all contexts.
Scenario A (one context, one visible element `"09:30 - book"`, nonzero
budget) yields `available` with exactly `["09:30"]`. -/
theorem claim_C1_amended :
    (∀ (page : Nat → List Frame) (s n k : Nat) (fr : Frame), k < s →
        fr ∈ page k → find_slot_times_play fr ≠ [] →
        (detect_availability_play page s n).1 = Status.available) ∧
    (∀ (page : Nat → List Frame) (s n : Nat) (ts : List String),
        detect_availability_play page s n = (Status.available, ts) →
        ∃ k, k < s ∧ ∃ fr ∈ page k, find_slot_times_play fr = ts) ∧
    detect_availability_play pageScenA 1 0 = (Status.available, ["09:30"]) := by
  refine ⟨?_, ?_, by decide⟩
  · intro page s n k fr hk hfr hne
    unfold detect_availability_play detectWith
    cases h : slotLoop find_slot_times_play page 0 s with
    | some ts => rfl
    | none =>
      have hsk := (slotLoop_eq_none_iff s 0).mp h k hk
      rw [Nat.zero_add] at hsk
      exact absurd ((scanFramesTimes_eq_none_iff _).mp hsk fr hfr) hne
  · intro page s n ts hdet
    unfold detect_availability_play detectWith at hdet
    cases h : slotLoop find_slot_times_play page 0 s with
    | some ts' =>
      rw [h] at hdet
      have hts : ts' = ts := congrArg Prod.snd hdet
      subst hts
      obtain ⟨j, hj, hscan⟩ := slotLoop_some h
      obtain ⟨fr, hfr, hts, -⟩ := scanFramesTimes_some hscan
      exact ⟨j, hj, fr, by rwa [Nat.zero_add] at hfr, hts⟩
    | none =>
      rw [h] at hdet
      by_cases hb : noSlotsLoop page s n = true
      · rw [if_pos hb] at hdet
        exact absurd (congrArg Prod.fst hdet) (by simp)
      · rw [if_neg hb] at hdet
        exact absurd (congrArg Prod.fst hdet) (by simp)

/-- Witness for C1: the amended theorem applied to scenario A. -/
theorem claim_C1_witness :
    (detect_availability_play pageScenA 2 0).1 = Status.available :=
  claim_C1_amended.1 pageScenA 2 0 0 frScenA (by decide) (by decide) (by decide)

/-- Counterexample to C4 as stated: the code never zero-pads.  From the
element text `"9:05 09:05"` the two spellings are extracted as two
distinct set entries (`"9:05" ≠ "09:05"`), not normalized to one
zero-padded value; so an `available` result can carry a non-zero-padded
token. -/
theorem claim_C4_counterexample :
    detect_availability_playtest pageVar 1 0 = (Status.available, ["09:05", "9:05"]) ∧
    "9:05" ≠ "09:05" := by decide

/-- C4 ("corrected"): every token in an `available` result is the
literal substring matched by `TIME_RE` — `HH:MM` or `H:MM` with hour
`0`–`23` and minute `00`–`59`, no zero-padding applied — except that in
play.py the slot-button tier contributes only the hour part (group 1) of
each match; deduplication is by exact string value, so `9:05` and
`09:05` stay distinct entries. -/
theorem claim_C4_amended :
    (∀ (page : Nat → List Frame) (s n : Nat) (ts : List String),
        detect_availability_playtest page s n = (Status.available, ts) →
        ∀ t ∈ ts, isGoodTok t.data = true) ∧
    (∀ (page : Nat → List Frame) (s n : Nat) (ts : List String),
        detect_availability_play page s n = (Status.available, ts) →
        ∀ t ∈ ts, isGoodTok t.data = true ∨ isHourTok t.data = true) := by
  constructor
  · intro page s n ts hdet t ht
    unfold detect_availability_playtest detectWith at hdet
    cases h : slotLoop find_slot_times_playtest page 0 s with
    | some ts' =>
      rw [h] at hdet
      have hts : ts' = ts := congrArg Prod.snd hdet
      subst hts
      obtain ⟨j, hj, hscan⟩ := slotLoop_some h
      obtain ⟨fr, hfr, hts, -⟩ := scanFramesTimes_some hscan
      rw [← hts] at ht
      exact mem_find_slot_times_playtest ht
    | none =>
      rw [h] at hdet
      by_cases hb : noSlotsLoop page s n = true
      · rw [if_pos hb] at hdet
        exact absurd (congrArg Prod.fst hdet) (by simp)
      · rw [if_neg hb] at hdet
        exact absurd (congrArg Prod.fst hdet) (by simp)
  · intro page s n ts hdet t ht
    unfold detect_availability_play detectWith at hdet
    cases h : slotLoop find_slot_times_play page 0 s with
    | some ts' =>
      rw [h] at hdet
      have hts : ts' = ts := congrArg Prod.snd hdet
      subst hts
      obtain ⟨j, hj, hscan⟩ := slotLoop_some h
      obtain ⟨fr, hfr, hts, -⟩ := scanFramesTimes_some hscan
      rw [← hts] at ht
      exact mem_find_slot_times_play ht
    | none =>
      rw [h] at hdet
      by_cases hb : noSlotsLoop page s n = true
      · rw [if_pos hb] at hdet
        exact absurd (congrArg Prod.fst hdet) (by simp)
      · rw [if_neg hb] at hdet
        exact absurd (congrArg Prod.fst hdet) (by simp)

/-- Witness for C4: the amended theorem applied to the concrete
two-spelling observation. -/
theorem claim_C4_witness :
    isGoodTok ("9:05" : String).data = true :=
  claim_C4_amended.1 pageVar 1 0 ["09:05", "9:05"] (by decide) "9:05" (by decide)

/-- Counterexample to C9 as stated: an element whose text read raises
does not merely lose that element's signal — it ends the whole tier for
that frame, so the token-bearing element after it is never scanned (in
either tier, since slot buttons also match the generic locator), and
detection misses the `"09:30"` it would otherwise report. -/
theorem claim_C9_counterexample :
    find_slot_times_play frOk = ["09", "09:30"] ∧
    find_slot_times_play frRaise = [] ∧
    detect_availability_play pageRaise 1 1 = (Status.unknown, []) := by decide

/-- C9 ("corrected"): a failure while reading one element's visibility
or text is swallowed (the scan is a total function and never raises) and
the tokens already collected are kept; but it aborts the remainder of
that tier's candidate list for that frame in that poll — the elements
after the failing one are not scanned in that tier (the other tier and
other frames still are). -/
theorem claim_C9_amended :
    (∀ (E : String → List String) (pre : List Element) (e : Element)
        (post : List Element) (acc : List String),
        e.visible = none ∨ (e.visible = some true ∧ e.text = none) →
        scanTier E (pre ++ e :: post) acc = scanTier E (pre ++ [e]) acc) ∧
    (∀ (E : String → List String) (els : List Element) (acc : List String),
        ∀ t ∈ acc, t ∈ scanTier E els acc) :=
  ⟨fun _ pre e post acc he => scanTier_abort pre e post acc he,
   fun _ _ _ _ ht => scanTier_acc_subset ht⟩

/-- Witness for C9: the abort equation applied to the concrete raising
element followed by a token-bearing one. -/
theorem claim_C9_witness :
    scanTier extractPlaySlot ([] ++ elTextRaise :: [elSlot930]) [] =
      scanTier extractPlaySlot ([] ++ [elTextRaise]) [] :=
  claim_C9_amended.1 extractPlaySlot [] elTextRaise [elSlot930] []
    (Or.inr ⟨rfl, rfl⟩)

/-! ## Equivalence of the two files' detectors (under the smaller caps) -/

theorem insertionSort_eq_nil_iff {l : List String} :
    List.insertionSort strLe l = [] ↔ l = [] := by
  constructor
  · intro h
    have hl := List.length_insertionSort strLe l
    rw [h] at hl
    exact List.length_eq_zero.mp hl.symm
  · rintro rfl
    rfl

theorem extract_slot_nil_iff (txt : String) :
    extractPlaySlot txt = [] ↔ extractPtSlot txt = [] := by
  unfold extractPlaySlot extractPtSlot hourTokens timeMatches
  simp [List.map_eq_nil_iff]

theorem extract_generic_nil_iff (txt : String) :
    extractPlayGeneric txt = [] ↔ extractPtGeneric txt = [] := by
  unfold extractPlayGeneric extractPtGeneric
  by_cases hc : (pyStrip txt.data).contains ':' = true
  · by_cases hm : timeMatches (String.mk (pyStrip txt.data)) = []
    · simp [hc, hm]
    · simp [hc, hm, List.isEmpty_iff]
  · simp [hc]

theorem find_nil_iff_of_caps {fr : Frame}
    (h1 : (fr.elements.filter matchesSlot).length ≤ 200)
    (h2 : (fr.elements.filter matchesGeneric).length ≤ 400) :
    (find_slot_times_play fr = [] ↔ find_slot_times_playtest fr = []) := by
  unfold find_slot_times_play find_slot_times_playtest
  rw [insertionSort_eq_nil_iff, insertionSort_eq_nil_iff]
  rw [List.take_of_length_le h1, List.take_of_length_le (le_trans h1 (by omega)),
    List.take_of_length_le h2, List.take_of_length_le (le_trans h2 (by omega))]
  exact scanTier_nil_iff extract_generic_nil_iff _ _ _
    (scanTier_nil_iff extract_slot_nil_iff _ _ _ Iff.rfl)

/-- Counterexample to C10 as stated: on the same single-frame
observation (one visible slot button `"09:30"`), play.py returns
`["09", "09:30"]` (its slot-button tier records only the hour group)
while playtest.py returns `["09:30"]`, so the two files' detectors
disagree on the token list. -/
theorem claim_C10_counterexample :
    find_slot_times_play frOk = ["09", "09:30"] ∧
    find_slot_times_playtest frOk = ["09:30"] ∧
    detect_availability_play pageOk 1 0 ≠ detect_availability_playtest pageOk 1 0 := by
  decide

/-- C10 ("corrected"): the two files do not return the same token lists
(play.py's slot-button tier records bare hour strings, and the caps are
200/400 versus 300/600); but whenever every frame exposes at most 200
slot-button candidates and at most 400 generic candidates, both files
produce the same tri-state result state, because each frame yields
tokens in one file exactly when it does in the other and the no-slots
phase is identical. -/
theorem claim_C10_amended (page : Nat → List Frame) (s n : Nat)
    (hcap : ∀ k, ∀ fr ∈ page k,
      (fr.elements.filter matchesSlot).length ≤ 200 ∧
      (fr.elements.filter matchesGeneric).length ≤ 400) :
    (detect_availability_play page s n).1 = (detect_availability_playtest page s n).1 := by
  have hscan : ∀ k, scanFramesTimes find_slot_times_play (page k) = none ↔
      scanFramesTimes find_slot_times_playtest (page k) = none := by
    intro k
    rw [scanFramesTimes_eq_none_iff, scanFramesTimes_eq_none_iff]
    constructor
    · intro h fr hfr
      exact (find_nil_iff_of_caps (hcap k fr hfr).1 (hcap k fr hfr).2).mp (h fr hfr)
    · intro h fr hfr
      exact (find_nil_iff_of_caps (hcap k fr hfr).1 (hcap k fr hfr).2).mpr (h fr hfr)
  have hloop : slotLoop find_slot_times_play page 0 s = none ↔
      slotLoop find_slot_times_playtest page 0 s = none := by
    rw [slotLoop_eq_none_iff, slotLoop_eq_none_iff]
    constructor
    · intro h j hj
      exact (hscan _).mp (h j hj)
    · intro h j hj
      exact (hscan _).mpr (h j hj)
  unfold detect_availability_play detect_availability_playtest detectWith
  cases h1 : slotLoop find_slot_times_play page 0 s with
  | some ts1 =>
    cases h2 : slotLoop find_slot_times_playtest page 0 s with
    | some ts2 => rfl
    | none =>
      have := hloop.mpr h2
      rw [h1] at this
      exact Option.noConfusion this
  | none =>
    rw [hloop.mp h1]

/-- Witness for C10: a capped single-frame observation on which both
detectors report `available`. -/
theorem claim_C10_witness :
    (detect_availability_play pageScenA 1 1).1 =
      (detect_availability_playtest pageScenA 1 1).1 :=
  claim_C10_amended pageScenA 1 1 (by
    intro k fr hfr
    rcases List.mem_singleton.mp hfr with rfl
    exact ⟨by decide, by decide⟩)

/-- C3 ("confirmed"): phases are strictly sequential.  In the
instrumented detector (which computes the same result as
`detect_availability`): every observation log is a block of slot-scan
polls followed by a block of no-slots checks, the no-slots checks only
ever look at polls after the whole slots budget; when no token appears,
the slot phase runs its full budget before any no-slots check; and a
token found at the earliest token-bearing poll `k` terminates detection
with `available` right there — no later slot poll and no no-slots check
ever runs, so the unavailability indicator can never override it, even
when both signals are present in the document throughout. -/
theorem claim_C3 (f : Frame → List String) (page : Nat → List Frame) (s n : Nat) :
    (detectLogWith f page s n).1 = detectWith f page s n ∧
    (∃ a b : List Nat, (detectLogWith f page s n).2 =
        a.map DEvent.slotPoll ++ b.map DEvent.noSlotsPoll ∧ ∀ j ∈ b, s ≤ j) ∧
    ((∀ k, k < s → ∀ fr ∈ page k, f fr = []) →
      ∃ b : List Nat, (detectLogWith f page s n).2 =
        (List.range s).map DEvent.slotPoll ++ b.map DEvent.noSlotsPoll) ∧
    (∀ k, k < s → (∃ fr ∈ page k, f fr ≠ []) →
      (∀ j, j < k → ∀ fr ∈ page j, f fr = []) →
      (detectLogWith f page s n).1.1 = Status.available ∧
      (detectLogWith f page s n).2 = (List.range (k + 1)).map DEvent.slotPoll) := by
  refine ⟨?_, ?_, ?_, ?_⟩
  · unfold detectLogWith detectWith
    rw [slotLoopLog_fst]
    cases h : slotLoop f page 0 s with
    | some ts => rfl
    | none => rw [noSlotsLoopLog_fst]
  · unfold detectLogWith
    cases h : (slotLoopLog f page 0 s).1 with
    | some ts =>
      obtain ⟨a, ha⟩ := @slotLoopLog_events f page s 0
      exact ⟨a, [], by simp [ha]⟩
    | none =>
      obtain ⟨a, ha⟩ := @slotLoopLog_events f page s 0
      obtain ⟨b, hb, hge⟩ := @noSlotsLoopLog_events page n s
      exact ⟨a, b, by simp [ha, hb], hge⟩
  · intro hall
    have hlog := @slotLoopLog_all_none f page s 0 (by
      intro j hj
      rw [Nat.zero_add, scanFramesTimes_eq_none_iff]
      intro fr hfr
      exact hall j hj fr hfr)
    unfold detectLogWith
    rw [hlog]
    obtain ⟨b, hb, -⟩ := @noSlotsLoopLog_events page n s
    exact ⟨b, by simp [hb, List.range_eq_range']⟩
  · intro k hk hex hleast
    have hnotnone : scanFramesTimes f (page k) ≠ none := by
      intro hc
      obtain ⟨fr, hfr, hfne⟩ := hex
      exact hfne ((scanFramesTimes_eq_none_iff _).mp hc fr hfr)
    cases hscan : scanFramesTimes f (page k) with
    | none => exact absurd hscan hnotnone
    | some ts =>
      have hlog := @slotLoopLog_hit f page k s 0 ts hk (by
        intro j hj
        rw [Nat.zero_add, scanFramesTimes_eq_none_iff]
        intro fr hfr
        exact hleast j hj fr hfr) (by rwa [Nat.zero_add])
      unfold detectLogWith
      rw [hlog]
      exact ⟨rfl, by simp [List.range_eq_range']⟩

/-- Witness for C3: a document tree whose single frame shows a slot
token, a matching no-slots button and the unavailability phrase all at
once; the token found at poll 0 ends detection as `available` after a
single slot poll, with no no-slots check in the log. -/
theorem claim_C3_witness :
    (detectLogWith find_slot_times_play pageBoth 2 3).1.1 = Status.available ∧
    (detectLogWith find_slot_times_play pageBoth 2 3).2 =
      (List.range 1).map DEvent.slotPoll :=
  (claim_C3 find_slot_times_play pageBoth 2 3).2.2.2 0 (by decide)
    (by decide) (by decide)

/-! ## try_click_variants -/

theorem tryClickGo_first_ok : ∀ (vs : List ClickTry) (k i : Nat),
    (∀ j, j < i → vs.get? j = some ClickTry.fail) → vs.get? i = some ClickTry.ok →
    tryClickGo vs k = (true, ((List.range' k (i + 1)).map ClickEv.tried) ++
      [ClickEv.clicked (k + i), ClickEv.settled]) := by
  intro vs
  induction vs with
  | nil => intro k i _ hok; simp at hok
  | cons v rest ih =>
    intro k i hpre hok
    cases i with
    | zero =>
      have hv : v = ClickTry.ok := by simpa using hok
      subst hv
      simp [tryClickGo, List.range']
    | succ i =>
      have hv : v = ClickTry.fail := by
        have := hpre 0 (Nat.succ_pos i)
        simpa using this
      subst hv
      simp only [tryClickGo]
      have hrec := ih (k + 1) i (by
        intro j hj
        have := hpre (j + 1) (Nat.succ_lt_succ hj)
        simpa using this) (by simpa using hok)
      rw [hrec]
      have hkk : k + 1 + i = k + (i + 1) := by omega
      simp [List.range', hkk]

theorem tryClickGo_all_fail : ∀ (vs : List ClickTry) (k : Nat),
    (∀ v ∈ vs, v = ClickTry.fail) →
    tryClickGo vs k = (false, (List.range' k vs.length).map ClickEv.tried) := by
  intro vs
  induction vs with
  | nil => intro k _; rfl
  | cons v rest ih =>
    intro k hall
    have hv : v = ClickTry.fail := hall v (List.mem_cons_self _ _)
    subst hv
    simp only [tryClickGo]
    rw [ih (k + 1) (fun w hw => hall w (List.mem_cons_of_mem _ hw))]
    simp [List.range']

/-- C7 ("confirmed"): `try_click_variants` tries the strategies in
declaration order; the first whose wait-visible/scroll/click sequence
succeeds is clicked and the settle delay runs before it returns `true`,
with no later strategy attempted; if every strategy raises, every one is
attempted in order (in particular the third after the first two fail)
and it returns `false` without raising (the model is a total function —
the caught exceptions never escape). -/
theorem claim_C7 (vs : List ClickTry) :
    (∀ i, (∀ j, j < i → vs.get? j = some ClickTry.fail) →
      vs.get? i = some ClickTry.ok →
      try_click_variants vs = (true, ((List.range (i + 1)).map ClickEv.tried) ++
        [ClickEv.clicked i, ClickEv.settled])) ∧
    ((∀ v ∈ vs, v = ClickTry.fail) →
      try_click_variants vs = (false, (List.range vs.length).map ClickEv.tried)) := by
  constructor
  · intro i hpre hok
    have h := tryClickGo_first_ok vs 0 i hpre hok
    rw [List.range_eq_range']
    simpa using h
  · intro hall
    have h := tryClickGo_all_fail vs 0 hall
    rw [List.range_eq_range']
    exact h

/-- Witness for C7: with the first two strategies failing and the third
succeeding, all three are attempted, the third is clicked, the settle
delay runs last, and the result is `true`. -/
theorem claim_C7_witness :
    try_click_variants [ClickTry.fail, ClickTry.fail, ClickTry.ok] =
      (true, ((List.range 3).map ClickEv.tried) ++
        [ClickEv.clicked 2, ClickEv.settled]) :=
  (claim_C7 [ClickTry.fail, ClickTry.fail, ClickTry.ok]).1 2 (by decide) (by decide)

end DoctoCheck
